import Mathlib

/-!
Shallow embedding of `src/index.ts` of the astro-htmx integration.

The source is a single integration factory.  Its pieces are modelled as:

* `safeExtName`   — the identifier sanitizer (`name.split("-").map(...).join("")`);
* `importStatement`, `extensionImports` — the per-extension import lines;
* `registrationStatement`, `extensionRegistrations` — the per-extension
  `htmx.defineExtension` lines;
* `injectedScript` — the template literal passed to `injectScript`, with the
  exact whitespace of the source file;
* `htmxIntegration` — the factory; the `astro:config:setup` hook is modelled
  by the ordered list of `(stage, script)` calls it makes to `injectScript`.

JavaScript primitives are translated for the BMP/ASCII inputs the integration
deals with: `String.prototype.split("-")` as `splitHyphen` on the character
list, `Array.prototype.join(sep)` as `joinSep`, `Array.prototype.map` with
index as `mapWithIndex`, and
`part.charAt(0).toUpperCase() + part.substring(1)` as `capitalizeFirst`.
-/

set_option maxRecDepth 100000

namespace AstroHtmx

/-- One entry of the `extensions` option of the integration:
`{ name: string; path?: string }`. -/
structure ExtensionDescriptor where
  name : String
  path : Option String := none
deriving Repr, DecidableEq

/-- The options object of the factory: `{ extensions?: {...}[] }`. -/
structure HtmxOptions where
  extensions : Option (List ExtensionDescriptor) := none
deriving Repr, DecidableEq

/-- The part of the Astro integration contract the source uses: the
integration name and, as the model of the `astro:config:setup` hook body, the
ordered list of `(stage, script)` calls made to the host `injectScript`
callback. -/
structure AstroIntegration where
  name : String
  injectScriptCalls : List (String × String)
deriving Repr, DecidableEq

/-- JavaScript `Array.prototype.join(sep)`. -/
def joinSep (sep : String) : List String → String
  | [] => ""
  | [x] => x
  | x :: y :: ys => x ++ sep ++ joinSep sep (y :: ys)

/-- JavaScript `String.prototype.split("-")` on the character list of a
string: `[[]]` on the empty string, and empty segments for leading, trailing
or consecutive hyphens. -/
def splitHyphen : List Char → List (List Char)
  | [] => [[]]
  | c :: rest =>
    match splitHyphen rest with
    | [] => [[]]
    | seg :: segs => if c = '-' then [] :: seg :: segs else (c :: seg) :: segs

/-- `String.prototype.split("-")` at the `String` level. -/
def jsSplitHyphen (s : String) : List String :=
  (splitHyphen s.data).map String.mk

/-- JavaScript `part.charAt(0).toUpperCase() + part.substring(1)`: the empty
string maps to itself, otherwise the first character is uppercased and the
rest is unchanged. -/
def capitalizeFirst (s : String) : String :=
  match s.data with
  | [] => ""
  | c :: cs => String.mk (c.toUpper :: cs)

/-- JavaScript `Array.prototype.map` when the callback also receives the
element index; `i` is the index of the head of the remaining list. -/
def mapWithIndex (f : Nat → α → β) : Nat → List α → List β
  | _, [] => []
  | i, x :: xs => f i x :: mapWithIndex f (i + 1) xs

/-- `safeExtName` from src/index.ts lines 48-54: split the name on hyphens,
keep segment 0 verbatim, uppercase the first character of every later
segment, and concatenate. -/
def safeExtName (name : String) : String :=
  joinSep ("")
    (mapWithIndex
      (fun index part => if index = 0 then part else capitalizeFirst part) 0
      (jsSplitHyphen name))

/-- The import line generated for one extension (src/index.ts lines 62-66):
the specifier is `ext.path ?? ext.name`, the binding is the sanitized name. -/
def importStatement (ext : ExtensionDescriptor) : String :=
  "import * as " ++ safeExtName ext.name ++ " from \"" ++
    ext.path.getD ext.name ++ "\";"

/-- `extensionImports` from src/index.ts lines 60-67. -/
def extensionImports (extensions : List ExtensionDescriptor) : String :=
  joinSep ("\n") (extensions.map importStatement)

/-- The registration line generated for one extension (src/index.ts lines
71-74).  Note that the second argument of `htmx.defineExtension` is emitted
inside quotes: it is the string literal `"..."`, not a bare identifier. -/
def registrationStatement (ext : ExtensionDescriptor) : String :=
  "htmx.defineExtension(\"" ++ ext.name ++ "\", \"" ++
    safeExtName ext.name ++ "\");"

/-- `extensionRegistrations` from src/index.ts lines 69-76. -/
def extensionRegistrations (extensions : List ExtensionDescriptor) : String :=
  joinSep ("\n") (extensions.map registrationStatement)

/-- The template literal up to `$\x7bextensionImports\x7d` (src/index.ts line
80-81), whitespace exactly as in the source file. -/
def scriptHeader : String :=
  "import * as htmx from \"htmx.org\";\n          "

/-- The template literal between the two interpolations (src/index.ts lines
81-85): blank line, the `astro:after-swap` listener opener, and the
`htmx.process` call. -/
def scriptMiddle : String :=
  "\n\n          document.addEventListener(\x27astro:after-swap\x27, () => \x7b\n            htmx.process(document.body);\n            "

/-- The template literal after `$\x7bextensionRegistrations\x7d` (src/index.ts
lines 85-88): listener closer, blank line, and the global exposure. -/
def scriptFooter : String :=
  "\n          \x7d);\n\n          window.htmx = htmx;"

/-- The script string passed to `injectScript` (src/index.ts lines 78-89). -/
def injectedScript (extensions : List ExtensionDescriptor) : String :=
  scriptHeader ++ extensionImports extensions ++ scriptMiddle ++
    extensionRegistrations extensions ++ scriptFooter

/-- The integration factory (the default export, src/index.ts lines 46-93).
`const \x7b extensions = [] \x7d = options` is `Option.getD`; the hook body is one
`injectScript("page", ...)` call. -/
def htmxIntegration (options : HtmxOptions) : AstroIntegration :=
  let extensions := options.extensions.getD []
  { name := "astro-htmx"
    injectScriptCalls := [("page", injectedScript extensions)] }

/-- Does the character list `s` start with `p`? -/
def hasPre (p s : List Char) : Bool :=
  match p, s with
  | [], _ => true
  | _ :: _, [] => false
  | a :: p2, b :: s2 => a == b && hasPre p2 s2

/-- Does `p` occur as a contiguous run inside `s`? -/
def hasSub (p s : List Char) : Bool :=
  match s with
  | [] => hasPre p []
  | _ :: s2 => hasPre p s || hasSub p s2

/-- Substring test at the `String` level. -/
def strContains (s sub : String) : Bool :=
  hasSub sub.data s.data

/-- Number of positions of `s` at which `p` occurs. -/
def countSub (p s : List Char) : Nat :=
  match s with
  | [] => if hasPre p [] then 1 else 0
  | _ :: s2 => (if hasPre p s then 1 else 0) + countSub p s2

/-- Occurrence count at the `String` level. -/
def strCount (s sub : String) : Nat :=
  countSub sub.data s.data

example : safeExtName ("response-targets") = "responseTargets" := by decide

example : safeExtName ("a-b-c") = "aBC" := by decide

example : strContains (injectedScript [{ name := "response-targets" }])
    ("htmx.defineExtension(\"response-targets\", \"responseTargets\");") = true := by
  decide

/-! Helper lemmas about strings. -/

theorem strEq_of_data {a b : String} (h : a.data = b.data) : a = b := by
  cases a
  cases b
  exact congrArg String.mk h

theorem data_append (a b : String) : (a ++ b).data = a.data ++ b.data := by
  cases a
  cases b
  rfl

theorem data_empty : ("" : String).data = [] := rfl

theorem strAppend_assoc (a b c : String) : a ++ b ++ c = a ++ (b ++ c) := by
  apply strEq_of_data
  simp [data_append]

theorem strAppend_empty (a : String) : a ++ "" = a := by
  apply strEq_of_data
  simp [data_append, data_empty]

theorem strEmpty_append (a : String) : "" ++ a = a := by
  apply strEq_of_data
  simp [data_append, data_empty]

theorem mk_data (s : String) : String.mk s.data = s := by
  cases s
  rfl

/-! Helper lemmas about `splitHyphen` and `joinSep`. -/

theorem splitHyphen_ne_nil (s : List Char) : splitHyphen s ≠ [] := by
  cases s with
  | nil => simp [splitHyphen]
  | cons c rest =>
    cases h : splitHyphen rest with
    | nil => simp [splitHyphen, h]
    | cons seg segs =>
      simp only [splitHyphen, h]
      split <;> simp

theorem splitHyphen_app (u : List Char) :
    ∀ (t seg : List Char) (segs : List (List Char)), '-' ∉ u →
      splitHyphen t = seg :: segs →
      splitHyphen (u ++ t) = (u ++ seg) :: segs := by
  induction u with
  | nil => intro t seg segs _ h; simpa using h
  | cons c u2 ih =>
    intro t seg segs hu h
    have hc : ¬c = '-' := fun hc => hu (by simp [hc])
    have hu2 : '-' ∉ u2 := fun hm => hu (by simp [hm])
    have ih2 := ih t seg segs hu2 h
    simp [splitHyphen, List.cons_append, ih2, if_neg hc]

theorem splitHyphen_noHyphen (s : List Char) (h : '-' ∉ s) :
    splitHyphen s = [s] := by
  have := splitHyphen_app s [] [] [] h rfl
  simpa using this

theorem splitHyphen_hyphen_cons (t : List Char) :
    splitHyphen ('-' :: t) = [] :: splitHyphen t := by
  cases h : splitHyphen t with
  | nil => exact absurd h (splitHyphen_ne_nil t)
  | cons seg segs => simp [splitHyphen, h]

/-- Character-level image of `joinSep "-"`, used to reason about the
split/join round trip. -/
def joinCharSep : List (List Char) → List Char
  | [] => []
  | [x] => x
  | x :: y :: ys => x ++ '-' :: joinCharSep (y :: ys)

theorem joinSep_hyphen_data :
    ∀ l : List String, (joinSep ("-") l).data = joinCharSep (l.map String.data)
  | [] => rfl
  | [_] => by simp [joinSep, joinCharSep]
  | x :: y :: ys => by
    have ih := joinSep_hyphen_data (y :: ys)
    simp [joinSep, joinCharSep, data_append, ih]

theorem splitHyphen_joinCharSep (first : List Char) :
    ∀ rest : List (List Char), '-' ∉ first → (∀ x ∈ rest, '-' ∉ x) →
      splitHyphen (joinCharSep (first :: rest)) = first :: rest := by
  intro rest
  induction rest generalizing first with
  | nil =>
    intro h1 _
    simpa [joinCharSep] using splitHyphen_noHyphen first h1
  | cons y ys ih =>
    intro h1 h2
    have hy : '-' ∉ y := h2 y (by simp)
    have hys : ∀ x ∈ ys, '-' ∉ x := fun x hx => h2 x (by simp [hx])
    have hrec : splitHyphen (joinCharSep (y :: ys)) = y :: ys := ih y hy hys
    have hcons : splitHyphen ('-' :: joinCharSep (y :: ys)) =
        [] :: y :: ys := by
      rw [splitHyphen_hyphen_cons, hrec]
    have happ := splitHyphen_app first ('-' :: joinCharSep (y :: ys))
      [] (y :: ys) h1 hcons
    simpa [joinCharSep] using happ

theorem jsSplitHyphen_join (first : String) (rest : List String)
    (h1 : '-' ∉ first.data) (h2 : ∀ x ∈ rest, '-' ∉ x.data) :
    jsSplitHyphen (joinSep ("-") (first :: rest)) = first :: rest := by
  unfold jsSplitHyphen
  rw [joinSep_hyphen_data]
  have : (first :: rest).map String.data = first.data :: rest.map String.data := by
    simp
  rw [this]
  rw [splitHyphen_joinCharSep first.data (rest.map String.data) h1
    (by intro x hx; obtain ⟨s, hs, hsx⟩ := List.mem_map.mp hx; exact hsx ▸ h2 s hs)]
  simp only [List.map_cons, List.map_map, mk_data]
  rw [show String.mk ∘ String.data = id from funext mk_data, List.map_id]

theorem mapWithIndex_pos (l : List String) :
    ∀ i : Nat, mapWithIndex
      (fun index part => if index = 0 then part else capitalizeFirst part)
      (i + 1) l = l.map capitalizeFirst := by
  induction l with
  | nil => intro i; rfl
  | cons x xs ih => intro i; simp [mapWithIndex, ih (i + 1)]

theorem joinSep_nil_cons (x : String) (xs : List String) :
    joinSep ("") (x :: xs) = x ++ joinSep ("") xs := by
  cases xs with
  | nil => simp [joinSep, strAppend_empty]
  | cons y ys => simp [joinSep, strAppend_empty, strAppend_assoc, strEmpty_append]

theorem safeExtName_join (first : String) (rest : List String)
    (h1 : '-' ∉ first.data) (h2 : ∀ x ∈ rest, '-' ∉ x.data) :
    safeExtName (joinSep ("-") (first :: rest)) =
      first ++ joinSep ("") (rest.map capitalizeFirst) := by
  unfold safeExtName
  rw [jsSplitHyphen_join first rest h1 h2]
  rw [show mapWithIndex
      (fun index part => if index = 0 then part else capitalizeFirst part) 0
      (first :: rest) =
      first :: mapWithIndex
        (fun index part => if index = 0 then part else capitalizeFirst part) 1
        rest from by simp [mapWithIndex]]
  rw [mapWithIndex_pos rest 0]
  exact joinSep_nil_cons first (rest.map capitalizeFirst)

theorem joinSep_cons_ne (sep x : String) (l : List String) (h : l ≠ []) :
    joinSep sep (x :: l) = x ++ sep ++ joinSep sep l := by
  cases l with
  | nil => exact absurd rfl h
  | cons a as => simp [joinSep]

theorem joinSep_occ (sep y : String) :
    ∀ xs ys : List String, ∃ u v, joinSep sep (xs ++ y :: ys) = u ++ (y ++ v) ∧
      ∃ w, v = w ++ joinSep sep ys := by
  intro xs
  induction xs with
  | nil =>
    intro ys
    cases ys with
    | nil =>
      refine ⟨"", "", ?_, "", by simp [joinSep, strEmpty_append]⟩
      simp [joinSep, strAppend_empty, strEmpty_append]
    | cons z zs =>
      refine ⟨"", sep ++ joinSep sep (z :: zs), ?_, sep, rfl⟩
      rw [List.nil_append, joinSep_cons_ne sep y (z :: zs) (by simp),
        strEmpty_append, strAppend_assoc]
  | cons x xs2 ih =>
    intro ys
    obtain ⟨u, v, hu, w, hw⟩ := ih ys
    refine ⟨x ++ sep ++ u, v, ?_, w, hw⟩
    rw [List.cons_append, joinSep_cons_ne sep x (xs2 ++ y :: ys) (by simp), hu]
    simp [strAppend_assoc]

theorem joinSep_occ2 (sep a b : String) (l1 l2 l3 : List String) :
    ∃ u v w, joinSep sep (l1 ++ a :: (l2 ++ b :: l3)) =
      u ++ (a ++ (v ++ (b ++ w))) := by
  obtain ⟨u1, v1, h1, w1, hw1⟩ := joinSep_occ sep a l1 (l2 ++ b :: l3)
  obtain ⟨u2, v2, h2, _, _⟩ := joinSep_occ sep b l2 l3
  refine ⟨u1, w1 ++ u2, v2, ?_⟩
  rw [h1, hw1, h2]
  simp [strAppend_assoc]

/-- The injected script cut into the literal pieces the claims talk about. -/
theorem injectedScript_decomp (exts : List ExtensionDescriptor) :
    injectedScript exts =
      "import * as htmx from \"htmx.org\";" ++ ("\n          " ++
        (extensionImports exts ++ ("\n\n          " ++
          ("document.addEventListener(\x27astro:after-swap\x27, () => \x7b" ++
            ("\n            htmx.process(document.body);\n            " ++
              (extensionRegistrations exts ++ ("\n          \x7d);" ++
                ("\n\n          " ++ "window.htmx = htmx;")))))))) := by
  rw [injectedScript,
    show scriptHeader = "import * as htmx from \"htmx.org\";" ++ "\n          "
      from rfl,
    show scriptMiddle = "\n\n          " ++
      ("document.addEventListener(\x27astro:after-swap\x27, () => \x7b" ++
        "\n            htmx.process(document.body);\n            ") from rfl,
    show scriptFooter = "\n          \x7d);" ++
      ("\n\n          " ++ "window.htmx = htmx;") from rfl]
  simp only [strAppend_assoc]

/-! The claims. -/

/-- C1: the claim says the registration call passes the sanitized identifier
as a BARE identifier.  At the input `[\x7b name := "response-targets" \x7d]` the
code instead emits the sanitized name inside string quotes:
`htmx.defineExtension("response-targets", "responseTargets");`, and the
claimed call with the bare identifier does not occur in the script. -/
theorem claimC1_registration_arg_quoted :
    strContains (injectedScript [{ name := "response-targets" }])
      ("htmx.defineExtension(\"response-targets\", \"responseTargets\");") =
      true ∧
    strContains (injectedScript [{ name := "response-targets" }])
      ("htmx.defineExtension(\"response-targets\", responseTargets)") =
      false := by
  decide

/-- C2: for a name made of hyphen-separated segments of lowercase letters and
digits, `safeExtName` returns segment 0 followed by every later segment with
its first character uppercased and the remainder unchanged, concatenated with
no separator, in order. -/
theorem claimC2_camelCase_join (s0 : String) (rest : List String)
    (h : ∀ s ∈ s0 :: rest, ∀ c ∈ s.data, (c.isLower || c.isDigit) = true) :
    safeExtName (joinSep ("-") (s0 :: rest)) =
      s0 ++ joinSep ("") (rest.map capitalizeFirst) := by
  have noH : ∀ s ∈ s0 :: rest, '-' ∉ s.data := by
    intro s hs hc
    exact absurd (h s hs '-' hc) (by decide)
  exact safeExtName_join s0 rest (noH s0 (by simp))
    (fun x hx => noH x (by simp [hx]))

/-- C2 witness: segments "a", "b", "c" satisfy the hypothesis, and on them
the theorem yields `safeExtName "a-b-c" = "aBC"`. -/
theorem claimC2_witness :
    (∀ s ∈ ("a" : String) :: ["b", "c"], ∀ c ∈ s.data,
      (c.isLower || c.isDigit) = true) ∧
    safeExtName (joinSep ("-") (("a" : String) :: ["b", "c"])) =
      "a" ++ joinSep ("") (["b", "c"].map capitalizeFirst) :=
  ⟨by decide, claimC2_camelCase_join "a" ["b", "c"] (by decide)⟩

/-- C3: the generated script has the claim's fixed textual structure, stated
as an exact equality: the base statement `import * as htmx from "htmx.org";`
first, then the extension import statements, then the `astro:after-swap`
listener whose body first runs `htmx.process(document.body);` and then the
per-extension registration calls, and the final statement
`window.htmx = htmx;`, with the template literal's fixed whitespace between
the sections. -/
theorem claimC3_script_structure (exts : List ExtensionDescriptor) :
    injectedScript exts =
      "import * as htmx from \"htmx.org\";" ++ ("\n          " ++
        (extensionImports exts ++ ("\n\n          " ++
          ("document.addEventListener(\x27astro:after-swap\x27, () => \x7b" ++
            ("\n            htmx.process(document.body);\n            " ++
              (extensionRegistrations exts ++ ("\n          \x7d);" ++
                ("\n\n          " ++ "window.htmx = htmx;")))))))) :=
  injectedScript_decomp exts

/-- C4: for the empty extension list the generator is total (no error) and
the script has exactly one occurrence of "import" (the base-library import),
no `htmx.defineExtension` call, the `htmx.process` call, and the
`window.htmx = htmx;` assignment. -/
theorem claimC4_empty_list :
    strCount (injectedScript []) ("import") = 1 ∧
    strCount (injectedScript []) ("htmx.defineExtension") = 0 ∧
    strContains (injectedScript []) ("htmx.process(document.body);") = true ∧
    strContains (injectedScript []) ("window.htmx = htmx;") = true := by
  decide

/-- C5: the import statement of an extension uses `path` as module specifier
when present and `name` otherwise; in particular for name "foo" with path
"./local/foo" the script imports from "./local/foo" and not from "foo". -/
theorem claimC5_path_specifier :
    (∀ e : ExtensionDescriptor, importStatement e =
      "import * as " ++ safeExtName e.name ++ " from \"" ++
        (match e.path with | some p => p | none => e.name) ++ "\";") ∧
    strContains
      (injectedScript [{ name := "foo", path := some "./local/foo" }])
      ("from \"./local/foo\";") = true ∧
    strContains
      (injectedScript [{ name := "foo", path := some "./local/foo" }])
      ("from \"foo\";") = false := by
  refine ⟨?_, by decide, by decide⟩
  intro e
  cases h : e.path <;> simp [importStatement, h]

/-- C6: when extension `a` precedes extension `b` in the input list, the
generated import statement of `a` occurs before that of `b` in the
generated script, and likewise for their registration statements. -/
theorem claimC6_order (exts l1 l2 l3 : List ExtensionDescriptor)
    (a b : ExtensionDescriptor) (h : exts = l1 ++ a :: (l2 ++ b :: l3)) :
    (∃ u v w, injectedScript exts =
      u ++ (importStatement a ++ (v ++ (importStatement b ++ w)))) ∧
    (∃ u v w, injectedScript exts =
      u ++ (registrationStatement a ++
        (v ++ (registrationStatement b ++ w)))) := by
  subst h
  constructor
  · obtain ⟨u, v, w, hI⟩ := joinSep_occ2 ("\n") (importStatement a)
      (importStatement b) (l1.map importStatement) (l2.map importStatement)
      (l3.map importStatement)
    have hmap : extensionImports (l1 ++ a :: (l2 ++ b :: l3)) =
        u ++ (importStatement a ++ (v ++ (importStatement b ++ w))) := by
      rw [extensionImports,
        show (l1 ++ a :: (l2 ++ b :: l3)).map importStatement =
          l1.map importStatement ++ importStatement a ::
            (l2.map importStatement ++
              importStatement b :: l3.map importStatement) from by simp, hI]
    refine ⟨scriptHeader ++ u, v, w ++ (scriptMiddle ++
      (extensionRegistrations (l1 ++ a :: (l2 ++ b :: l3)) ++
        scriptFooter)), ?_⟩
    rw [injectedScript, hmap]
    simp only [strAppend_assoc]
  · obtain ⟨u, v, w, hR⟩ := joinSep_occ2 ("\n") (registrationStatement a)
      (registrationStatement b) (l1.map registrationStatement)
      (l2.map registrationStatement) (l3.map registrationStatement)
    have hmap : extensionRegistrations (l1 ++ a :: (l2 ++ b :: l3)) =
        u ++ (registrationStatement a ++
          (v ++ (registrationStatement b ++ w))) := by
      rw [extensionRegistrations,
        show (l1 ++ a :: (l2 ++ b :: l3)).map registrationStatement =
          l1.map registrationStatement ++ registrationStatement a ::
            (l2.map registrationStatement ++
              registrationStatement b :: l3.map registrationStatement)
          from by simp, hR]
    refine ⟨scriptHeader ++
      (extensionImports (l1 ++ a :: (l2 ++ b :: l3)) ++
        (scriptMiddle ++ u)), v, w ++ scriptFooter, ?_⟩
    rw [injectedScript, hmap]
    simp only [strAppend_assoc]

/-- C6 witness: the two-element list with names "alpha" and "beta", cut as
`[] ++ alpha :: ([] ++ beta :: [])`. -/
theorem claimC6_witness :
    ([({ name := "alpha" } : ExtensionDescriptor), { name := "beta" }] =
      [] ++ ({ name := "alpha" } : ExtensionDescriptor) ::
        ([] ++ ({ name := "beta" } : ExtensionDescriptor) :: [])) ∧
    ((∃ u v w,
      injectedScript
          [({ name := "alpha" } : ExtensionDescriptor), { name := "beta" }] =
        u ++ (importStatement ({ name := "alpha" } : ExtensionDescriptor) ++
          (v ++ (importStatement ({ name := "beta" } : ExtensionDescriptor) ++
            w)))) ∧
    (∃ u v w,
      injectedScript
          [({ name := "alpha" } : ExtensionDescriptor), { name := "beta" }] =
        u ++
          (registrationStatement ({ name := "alpha" } : ExtensionDescriptor) ++
            (v ++
              (registrationStatement
                  ({ name := "beta" } : ExtensionDescriptor) ++ w))))) :=
  ⟨rfl, claimC6_order
    [({ name := "alpha" } : ExtensionDescriptor), { name := "beta" }]
    [] [] [] ({ name := "alpha" }) ({ name := "beta" }) rfl⟩

/-- C7: `safeExtName` is the identity on names that contain no hyphen. -/
theorem claimC7_hyphenless_id (n : String) (h : '-' ∉ n.data) :
    safeExtName n = n := by
  unfold safeExtName jsSplitHyphen
  rw [splitHyphen_noHyphen n.data h]
  simp [mapWithIndex, joinSep, mk_data]

/-- C7 witness: "foo" has no hyphen and maps to itself. -/
theorem claimC7_witness :
    '-' ∉ ("foo" : String).data ∧ safeExtName ("foo") = "foo" :=
  ⟨by decide, claimC7_hyphenless_id "foo" (by decide)⟩

/-- C8: for every options value, the `astro:config:setup` hook makes exactly
one `injectScript` call, at stage "page", passing the single generated
bootstrap string. -/
theorem claimC8_single_injection (options : HtmxOptions) :
    (htmxIntegration options).injectScriptCalls =
      [("page", injectedScript (options.extensions.getD []))] := rfl

/-- C9: empty segments from trailing, consecutive, or leading hyphens
contribute nothing, the empty name maps to itself, and the function is total
(no error for any input). -/
theorem claimC9_degenerate :
    safeExtName ("a-") = "a" ∧ safeExtName ("a--b") = "aB" ∧
    safeExtName ("-a") = "A" ∧ safeExtName ("") = "" := by
  decide

/-- C10: the factory invoked with the options object left empty (the TS
default `\x7b\x7d`, which is also what a missing argument and an empty options
object denote) and with `extensions := some []` yields the same integration:
same name, same single hook call, character-for-character the same script. -/
theorem claimC10_default_equiv :
    htmxIntegration {} = htmxIntegration { extensions := some [] } ∧
    (htmxIntegration {}).name = "astro-htmx" ∧
    (htmxIntegration {}).injectScriptCalls =
      [("page", injectedScript [])] := by
  decide

end AstroHtmx
